import Mathlib

/-!
Shallow embedding of the similarity-hashing core of the `tegamino` recipe
framework (`src/Recipe.js`, `src/RecipeStep.js`, `src/entities.js`).

The repository's code calls three Node.js builtins that are external to the
repository: `crypto` MD5 digests, `zlib` gzip compression, and `Buffer`
base64/hex codecs.  Following the spec's own abstraction (§4.2: "MD5 is
acceptable; any stable ... hash ... is acceptable as a substitute"; §4.3:
"a general-purpose lossless compressor (gzip-compatible)"), the digest and
the compressor are parameters of the embedding, bundled in a `Codec`; the
facts we need about the real zlib (round-trip, byte-valued output, rejection
of streams that do not start with the gzip magic bytes 1f 8b) are stated as
the `GzipFaithful` predicate.  Base64 and hex codecs are implemented
concretely, following Node's documented `Buffer` behaviour (invalid base64
characters are ignored, a trailing lone hex digit is dropped).  JavaScript
numbers appearing as bucket counts / scores are modelled as exact rationals;
the one place where JS float semantics would diverge (0/0 = NaN when both
decoded histograms are empty) is excluded by explicit positivity hypotheses
in the theorems concerned.
-/

namespace Tegamino

/-- The three exceptions the `cook`/`compareTo` pipeline can throw
(`Recipe.js`): the implicit `RangeError` from `new Array(numBuckets)`,
`Error('Invalid hash format: unable to decompress')` from `decompressHash`,
and `Error('Hashes must be of equal length')` from the length check. -/
inductive JsError where
  | rangeError
  | invalidHashFormat
  | lengthMismatch
deriving DecidableEq, Repr

/-- The message attached to each thrown error in `Recipe.js`
(`RangeError` carries V8's standard invalid-array-length message). -/
def JsError.message : JsError → String
  | .rangeError => "Invalid array length"
  | .invalidHashFormat => "Invalid hash format: unable to decompress"
  | .lengthMismatch => "Hashes must be of equal length"

/-- An entity from `entities.js`: `{ type, name, ...properties }`.
Ingredient entities carry an `amount` (used by `Recipe.scale`). -/
structure Entity where
  etype : String
  name : String
  amount : Rat
deriving DecidableEq, Repr

/-- A `{ value, unit }` measurement as far as hashing sees it: only
`.value` is read by `_hashStep`, already in its `toString()` form. -/
structure TValue where
  value : String
deriving DecidableEq, Repr

/-- A step action (`RecipeStep.js` builders): a `type` tag plus the four
optional fields read by `Recipe[_hashStep]`.  `none` models a field that is
absent / `null` / `undefined` on the action object. -/
structure Action where
  atype : String
  ingredient : Option Entity
  container : Option Entity
  temperature : Option TValue
  duration : Option TValue
deriving DecidableEq, Repr

/-- A cue `{ type, description }` (`RecipeStep.untilCue`). -/
structure Cue where
  ctype : String
  description : String
deriving DecidableEq, Repr

/-- An adjustment `{ condition, action }` (`RecipeStep.adjust`). -/
structure Adjustment where
  condition : String
  action : String
deriving DecidableEq, Repr

/-- A sensory check `{ type, description, adjustment }`
(`RecipeStep.checkSensory`). -/
structure SensoryCheck where
  stype : String
  description : String
  adjustment : String
deriving DecidableEq, Repr

/-- A recipe step (`RecipeStep.js`): actions, cues, adjustments, sensory
checks, and recursively nested parallel threads. -/
inductive RecipeStep where
  | mk (actions : List Action) (cues : List Cue) (adjustments : List Adjustment)
      (sensoryChecks : List SensoryCheck) (threads : List RecipeStep)

def RecipeStep.actions : RecipeStep → List Action
  | .mk a _ _ _ _ => a

def RecipeStep.cues : RecipeStep → List Cue
  | .mk _ c _ _ _ => c

def RecipeStep.adjustments : RecipeStep → List Adjustment
  | .mk _ _ a _ _ => a

def RecipeStep.sensoryChecks : RecipeStep → List SensoryCheck
  | .mk _ _ _ s _ => s

def RecipeStep.threads : RecipeStep → List RecipeStep
  | .mk _ _ _ _ t => t

/-- The fields of a `Recipe` object (`Recipe.js` constructor) that the
hashing core reads or that the mutators of claim C10 touch, plus the
`hash` cache field (initialised to `null` by the constructor). -/
structure Recipe where
  name : String
  ingredients : List Entity
  steps : List RecipeStep
  servings : Rat
  tags : List String
  hash : Option String

/-- `new Recipe(name, {...})` / `Recipe.create`: the constructor always
sets `this.hash = null`. -/
def Recipe.create (name : String) (ingredients : List Entity)
    (steps : List RecipeStep) (servings : Rat) (tags : List String) : Recipe :=
  { name := name, ingredients := ingredients, steps := steps,
    servings := servings, tags := tags, hash := none }

/-- `Recipe.scale(factor)`: multiplies every ingredient amount and the
servings; does not touch `this.hash`. -/
def Recipe.scale (r : Recipe) (factor : Rat) : Recipe :=
  { r with
    ingredients := r.ingredients.map (fun i => { i with amount := i.amount * factor }),
    servings := r.servings * factor }

/-- `Recipe.addTags(...newTags)`: pushes onto `this.tags`; does not touch
`this.hash`. -/
def Recipe.addTags (r : Recipe) (newTags : List String) : Recipe :=
  { r with tags := r.tags ++ newTags }

/-- The two Node builtins the pipeline depends on, abstracted per the
spec: `digest32 s` stands for `parseInt(md5(s).substr(0, 8), 16)` — the
first four digest bytes as an unsigned 32-bit integer — and
`gzip`/`gunzip` stand for `zlib.gzipSync`/`gunzipSync` on byte lists
(`gunzip = none` models the decompression throw). -/
structure Codec where
  digest32 : String → Nat
  gzip : List Nat → List Nat
  gunzip : List Nat → Option (List Nat)

/-- `buckets[i]++` on a JS array of numbers: increment in range, no effect
on the array's elements out of range (the `NaN` index produced by
`x % 0` sets a non-index property, invisible to the later `.map`). -/
def bump : List Nat → Nat → List Nat
  | [], _ => []
  | x :: xs, 0 => (x + 1) :: xs
  | x :: xs, i + 1 => x :: bump xs i

/-- `Recipe[_hashAttribute](value, buckets, numBuckets)`: skip `null`/
`undefined`, otherwise md5 the lowercased string form and increment the
selected bucket. -/
def hashAttribute (c : Codec) (n : Nat) (value : Option String)
    (buckets : List Nat) : List Nat :=
  match value with
  | none => buckets
  | some v => bump buckets (c.digest32 v.toLower % n)

/-- The per-action body of the `step.actions.forEach` loop in
`Recipe[_hashStep]`: the action type, then each optional field only if
present. -/
def hashAction (c : Codec) (n : Nat) (a : Action) (buckets : List Nat) : List Nat :=
  let b1 := hashAttribute c n (some a.atype) buckets
  let b2 := match a.ingredient with
    | some e => hashAttribute c n (some e.name) b1
    | none => b1
  let b3 := match a.container with
    | some e => hashAttribute c n (some e.name) b2
    | none => b2
  let b4 := match a.temperature with
    | some t => hashAttribute c n (some t.value) b3
    | none => b3
  match a.duration with
  | some d => hashAttribute c n (some d.value) b4
  | none => b4

mutual

/-- `Recipe[_hashStep](step, buckets, numBuckets)`: actions, then cues
(type and description), then sensory checks (type and description),
then recursion into every parallel thread.  Adjustments are not read. -/
def hashStep (c : Codec) (n : Nat) : RecipeStep → List Nat → List Nat
  | .mk actions cues _adjustments sensoryChecks threads, buckets =>
    let b1 := actions.foldl (fun b a => hashAction c n a b) buckets
    let b2 := cues.foldl
      (fun b cu => hashAttribute c n (some cu.description)
        (hashAttribute c n (some cu.ctype) b)) b1
    let b3 := sensoryChecks.foldl
      (fun b ck => hashAttribute c n (some ck.description)
        (hashAttribute c n (some ck.stype) b)) b2
    hashThreads c n threads b3

/-- `step.threads.forEach((thread) => this[_hashStep](thread, ...))`. -/
def hashThreads (c : Codec) (n : Nat) : List RecipeStep → List Nat → List Nat
  | [], buckets => buckets
  | t :: ts, buckets => hashThreads c n ts (hashStep c n t buckets)

end

/-- The bucket-filling phase of `Recipe.cook` (lines 241-256): a fresh
zero array of `n` buckets, one increment per ingredient name, then
`_hashStep` over every step. -/
def cookBuckets (c : Codec) (n : Nat) (r : Recipe) : List Nat :=
  let b0 := List.replicate n 0
  let b1 := r.ingredients.foldl
    (fun b ing => bump b (c.digest32 ing.name.toLower % n)) b0
  r.steps.foldl (fun b s => hashStep c n s b) b1

/-- `count.toString(16)`: minimal lowercase hex digits, most significant
first, as digit values. -/
def hexMin (n : Nat) : List Nat :=
  if _h : n < 16 then [n] else hexMin (n / 16) ++ [n % 16]
  termination_by n
  decreasing_by exact Nat.div_lt_self (by omega) (by omega)

/-- `count.toString(16).padStart(2, '0')`: pad on the left to at least two
hex digits.  Counters above 255 keep all their digits (no clamping). -/
def toHex2 (count : Nat) : List Nat :=
  if (hexMin count).length < 2 then 0 :: hexMin count else hexMin count

/-- `Buffer.from(hexString, 'hex')`: consume hex digits two at a time;
a trailing lone digit is dropped. -/
def hexToBytes : List Nat → List Nat
  | a :: b :: rest => (16 * a + b) :: hexToBytes rest
  | _ => []

/-- `buffer.toString('hex')`: two hex digits per byte. -/
def bytesToHexDigits (bs : List Nat) : List Nat :=
  bs.flatMap (fun b => [b / 16, b % 16])

/-- The standard base64 alphabet, by 6-bit value. -/
def b64Char (v : Nat) : Char :=
  if v < 26 then Char.ofNat (65 + v)
  else if v < 52 then Char.ofNat (97 + (v - 26))
  else if v < 62 then Char.ofNat (48 + (v - 52))
  else if v = 62 then Char.ofNat 43
  else Char.ofNat 47

/-- The 6-bit value of a base64 character; Node's decoder also accepts the
URL-safe alphabet, so both 43/45 map to 62 and both 47/95 map to 63. -/
def b64Val (ch : Char) : Option Nat :=
  if 65 ≤ ch.toNat ∧ ch.toNat ≤ 90 then some (ch.toNat - 65)
  else if 97 ≤ ch.toNat ∧ ch.toNat ≤ 122 then some (26 + (ch.toNat - 97))
  else if 48 ≤ ch.toNat ∧ ch.toNat ≤ 57 then some (52 + (ch.toNat - 48))
  else if ch.toNat = 43 ∨ ch.toNat = 45 then some 62
  else if ch.toNat = 47 ∨ ch.toNat = 95 then some 63
  else none

/-- base64 encoding of a byte list, three bytes to four characters, with
`=` padding, as `buffer.toString('base64')` produces. -/
def b64EncGroups : List Nat → List Char
  | x :: y :: z :: rest =>
    b64Char (x / 4) :: b64Char ((x % 4) * 16 + y / 16) ::
      b64Char ((y % 16) * 4 + z / 64) :: b64Char (z % 64) :: b64EncGroups rest
  | [x, y] =>
    [b64Char (x / 4), b64Char ((x % 4) * 16 + y / 16), b64Char ((y % 16) * 4),
      Char.ofNat 61]
  | [x] => [b64Char (x / 4), b64Char ((x % 4) * 16), Char.ofNat 61, Char.ofNat 61]
  | [] => []

def base64encode (bs : List Nat) : String :=
  String.mk (b64EncGroups bs)

/-- Reassemble bytes from 6-bit values four at a time; Node also decodes a
final partial group of two or three characters. -/
def b64DecGroups : List Nat → List Nat
  | a :: b :: c :: d :: rest =>
    (4 * a + b / 16) :: ((b % 16) * 16 + c / 4) :: ((c % 4) * 64 + d) ::
      b64DecGroups rest
  | [a, b, c] => [4 * a + b / 16, (b % 16) * 16 + c / 4]
  | [a, b] => [4 * a + b / 16]
  | _ => []

/-- `Buffer.from(s, 'base64')`: stop at the first `=`, ignore characters
outside the (URL-safe-extended) alphabet, decode in groups of four. -/
def base64decode (s : String) : List Nat :=
  b64DecGroups ((s.data.takeWhile (fun ch => ch.toNat ≠ 61)).filterMap b64Val)

/-- The encoding tail of `Recipe.cook` (lines 258-264): hex-render the
buckets, pack the hex string into bytes, gzip, base64. -/
def encodeHistogram (c : Codec) (buckets : List Nat) : String :=
  base64encode (c.gzip (hexToBytes (buckets.flatMap toHex2)))

/-- `Recipe.cook(numBuckets)`; the argument is a JS number, modelled as a
rational.  Returns the hash together with the updated recipe object (the
cache write `this.hash = ...`).  `new Array(numBuckets)` throws a
`RangeError` unless the argument is an integer in `[0, 2^32)`.  The
cache check precedes everything else, exactly as in the source. -/
def Recipe.cook (c : Codec) (r : Recipe) (numBuckets : Rat) :
    Except JsError (String × Recipe) :=
  match r.hash with
  | some h => .ok (h, r)
  | none =>
    if numBuckets.den = 1 ∧ 0 ≤ numBuckets.num ∧ numBuckets.num < 4294967296 then
      let n : Nat := numBuckets.num.toNat
      let enc := encodeHistogram c (cookBuckets c n r)
      .ok (enc, { r with hash := some enc })
    else
      .error .rangeError

/-- The inner `decompressHash` closure of `Recipe.compareTo` (lines
275-281): base64-decode, gunzip, and render the bytes back as the hex
string the comparison loop walks (digit values). -/
def decompressHash (c : Codec) (h : String) : Except JsError (List Nat) :=
  match c.gunzip (base64decode h) with
  | some bytes => .ok (bytesToHexDigits bytes)
  | none => .error .invalidHashFormat

/-- The distance loop of `Recipe.compareTo` (lines 296-300) on two
equal-length hex strings: parse two digits at a time and sum the absolute
differences. -/
def distanceLoop : List Nat → List Nat → Nat
  | a :: b :: r1, x :: y :: r2 =>
    ((16 * a + b : Int) - (16 * x + y)).natAbs + distanceLoop r1 r2
  | [a], [x] => ((a : Int) - x).natAbs
  | _, _ => 0

/-- `Recipe.compareTo(other)` (lines 274-304): decompress `this.cook()`,
then the other operand (another recipe's `cook()` or a raw hash string),
check lengths, and return `1 - distance / (16 * totalBuckets)` with
`totalBuckets = thisHash.length / 2`. -/
def Recipe.compareTo (c : Codec) (r : Recipe) (other : Recipe ⊕ String) :
    Except JsError Rat :=
  match Recipe.cook c r 256 with
  | .error e => .error e
  | .ok p =>
    match decompressHash c p.1 with
    | .error e => .error e
    | .ok thisHash =>
      let otherEnc : Except JsError String :=
        match other with
        | .inl r2 => (Recipe.cook c r2 256).map Prod.fst
        | .inr s => .ok s
      match otherEnc with
      | .error e => .error e
      | .ok s2 =>
        match decompressHash c s2 with
        | .error e => .error e
        | .ok otherHash =>
          if thisHash.length ≠ otherHash.length then
            .error .lengthMismatch
          else
            .ok (1 - (distanceLoop thisHash otherHash : Rat) /
              (16 * ((thisHash.length : Rat) / 2)))

/-- Parse a decoded hex string two digits at a time into bucket counts —
the histogram `compareTo`'s loop reads off (spec §4.3 decode). -/
def hexPairs : List Nat → List Nat
  | a :: b :: rest => (16 * a + b) :: hexPairs rest
  | _ => []

/-- Decode an `EncodedHash` back to its histogram: `decompressHash`
followed by 2-digit parsing, as `compareTo` consumes it. -/
def decodeHistogram (c : Codec) (s : String) : Except JsError (List Nat) :=
  (decompressHash c s).map hexPairs

/-- Total absolute per-bucket difference of two histograms. -/
def histDist (h1 h2 : List Nat) : Nat :=
  (List.zipWith (fun x y => ((x : Int) - y).natAbs) h1 h2).sum

/-- What the real zlib guarantees and the embedding relies on:
gunzip inverts gzip, gzip emits bytes on byte input, and gunzip rejects
any stream that does not begin with the gzip magic bytes `1f 8b`. -/
structure GzipFaithful (c : Codec) : Prop where
  roundtrip : ∀ bs, c.gunzip (c.gzip bs) = some bs
  bytes : ∀ bs, (∀ x ∈ bs, x < 256) → ∀ x ∈ c.gzip bs, x < 256
  magic : ∀ bs, bs.take 2 ≠ [31, 139] → c.gunzip bs = none

/-- A concrete stand-in compressor for evaluating the pipeline on closed
inputs: gzip prepends the magic bytes, gunzip strips them. -/
def gzipM (bs : List Nat) : List Nat := 31 :: 139 :: bs

def gunzipM (bs : List Nat) : Option (List Nat) :=
  if bs.take 2 = [31, 139] then some (bs.drop 2) else none

/-- A concrete stand-in 32-bit digest for evaluating the pipeline on
closed inputs. -/
def digest32M (s : String) : Nat := s.length * 2654435761 % 4294967296

def codecM : Codec := ⟨digest32M, gzipM, gunzipM⟩

/-! ## Feature-token characterisation

`hashStep` is an imperative fold over the buckets.  To reason about it we
characterise it as a fold of single-bucket increments over the step's
feature-token sequence, in traversal order (spec §4.1). -/

/-- One token's contribution: lowercase, digest, increment (the body of
`_hashAttribute` on a present value). -/
def bumpTok (c : Codec) (n : Nat) (buckets : List Nat) (t : String) : List Nat :=
  bump buckets (c.digest32 t.toLower % n)

/-- The name token of an optional entity field, empty when absent. -/
def optEntityTok : Option Entity → List String
  | some e => [e.name]
  | none => []

/-- The value token of an optional measurement field, empty when absent. -/
def optValueTok : Option TValue → List String
  | some t => [t.value]
  | none => []

/-- The tokens one action contributes, in source order: type tag, then
ingredient name, container name, temperature value, duration value —
each only when the field is present. -/
def actionTokens (a : Action) : List String :=
  [a.atype] ++ optEntityTok a.ingredient ++ optEntityTok a.container
    ++ optValueTok a.temperature ++ optValueTok a.duration

mutual

/-- The tokens a step contributes: its actions' tokens, its cues' type and
description, its sensory checks' type and description, then the tokens of
every parallel thread.  Adjustments contribute nothing. -/
def stepTokens : RecipeStep → List String
  | .mk actions cues _adjustments sensoryChecks threads =>
    actions.flatMap actionTokens
      ++ cues.flatMap (fun cu => [cu.ctype, cu.description])
      ++ sensoryChecks.flatMap (fun ck => [ck.stype, ck.description])
      ++ threadTokens threads

def threadTokens : List RecipeStep → List String
  | [] => []
  | t :: ts => stepTokens t ++ threadTokens ts

end

/-- All tokens of a recipe: one per ingredient name, then the steps in
order. -/
def recipeTokens (r : Recipe) : List String :=
  r.ingredients.map Entity.name ++ r.steps.flatMap stepTokens

mutual

/-- Erase the adjustments of a step at every nesting depth: two steps
"differ only in adjustments" exactly when their erasures coincide. -/
def stripAdjustments : RecipeStep → RecipeStep
  | .mk actions cues _adjustments sensoryChecks threads =>
    .mk actions cues [] sensoryChecks (stripAdjustmentsList threads)

def stripAdjustmentsList : List RecipeStep → List RecipeStep
  | [] => []
  | t :: ts => stripAdjustments t :: stripAdjustmentsList ts

end

/-! ## Bridge lemmas: imperative hashing = fold over tokens -/

theorem hashAttribute_some (c : Codec) (n : Nat) (v : String) (b : List Nat) :
    hashAttribute c n (some v) b = bumpTok c n b v := rfl

theorem foldl_flatMap_eq {α β σ : Type _} (f : σ → β → σ) (g : α → List β) :
    ∀ (l : List α) (init : σ),
      (l.flatMap g).foldl f init = l.foldl (fun s x => (g x).foldl f s) init
  | [], _ => rfl
  | x :: xs, init => by
    simp only [List.flatMap_cons, List.foldl_append, List.foldl_cons]
    exact foldl_flatMap_eq f g xs _

theorem hashAction_tokens (c : Codec) (n : Nat) (a : Action) (b : List Nat) :
    hashAction c n a b = (actionTokens a).foldl (bumpTok c n) b := by
  unfold hashAction actionTokens
  cases a.ingredient <;> cases a.container <;> cases a.temperature <;>
    cases a.duration <;>
    simp [hashAttribute, bumpTok, optEntityTok, optValueTok]

mutual

theorem hashStep_tokens (c : Codec) (n : Nat) :
    ∀ (s : RecipeStep) (b : List Nat),
      hashStep c n s b = (stepTokens s).foldl (bumpTok c n) b
  | .mk actions cues adjustments sensoryChecks threads, b => by
    rw [hashStep, stepTokens]
    rw [List.foldl_append, List.foldl_append, List.foldl_append]
    rw [foldl_flatMap_eq, foldl_flatMap_eq, foldl_flatMap_eq]
    have ha : ∀ b0 : List Nat, actions.foldl (fun b a => hashAction c n a b) b0 =
        actions.foldl (fun b a => (actionTokens a).foldl (bumpTok c n) b) b0 := by
      intro b0
      induction actions generalizing b0 with
      | nil => rfl
      | cons a as ih => simp only [List.foldl_cons, hashAction_tokens, ih]
    rw [ha]
    rw [hashThreads_tokens c n threads]
    have hcu : (fun (b : List Nat) (cu : Cue) =>
        hashAttribute c n (some cu.description) (hashAttribute c n (some cu.ctype) b)) =
        fun b cu => List.foldl (bumpTok c n) b [cu.ctype, cu.description] := by
      funext b cu
      simp [hashAttribute, bumpTok]
    have hck : (fun (b : List Nat) (ck : SensoryCheck) =>
        hashAttribute c n (some ck.description) (hashAttribute c n (some ck.stype) b)) =
        fun b ck => List.foldl (bumpTok c n) b [ck.stype, ck.description] := by
      funext b ck
      simp [hashAttribute, bumpTok]
    rw [hcu, hck]

theorem hashThreads_tokens (c : Codec) (n : Nat) :
    ∀ (ts : List RecipeStep) (b : List Nat),
      hashThreads c n ts b = (threadTokens ts).foldl (bumpTok c n) b
  | [], b => rfl
  | t :: ts, b => by
    rw [hashThreads, threadTokens, List.foldl_append,
      hashStep_tokens c n t b, hashThreads_tokens c n ts]

end

/-- `cookBuckets` as the token fold (spec §4.1-§4.2 composition). -/
theorem cookBuckets_tokens (c : Codec) (n : Nat) (r : Recipe) :
    cookBuckets c n r = (recipeTokens r).foldl (bumpTok c n) (List.replicate n 0) := by
  rw [cookBuckets, recipeTokens, List.foldl_append, List.foldl_map,
    foldl_flatMap_eq]
  congr 1
  funext b s
  exact hashStep_tokens c n s b

/-! ## Increments commute -/

theorem bump_comm : ∀ (b : List Nat) (i j : Nat),
    bump (bump b i) j = bump (bump b j) i
  | [], _, _ => rfl
  | _ :: _, 0, 0 => rfl
  | _ :: _, 0, _ + 1 => rfl
  | _ :: _, _ + 1, 0 => rfl
  | _ :: xs, i + 1, j + 1 => by
    simp only [bump, List.cons.injEq, true_and]
    exact bump_comm xs i j

theorem foldl_bumpTok_bump (c : Codec) (n : Nat) :
    ∀ (l : List String) (b : List Nat) (i : Nat),
      (l.foldl (bumpTok c n) (bump b i)) = bump (l.foldl (bumpTok c n) b) i
  | [], _, _ => rfl
  | t :: ts, b, i => by
    simp only [List.foldl_cons, bumpTok]
    rw [bump_comm]
    exact foldl_bumpTok_bump c n ts _ i

/-- Inserting one extra token anywhere in the sequence changes the final
histogram by exactly one increment of that token's bucket. -/
theorem foldl_bumpTok_insert (c : Codec) (n : Nat) (l1 l2 : List String)
    (t : String) (b : List Nat) :
    (l1 ++ t :: l2).foldl (bumpTok c n) b =
      bump ((l1 ++ l2).foldl (bumpTok c n) b) (c.digest32 t.toLower % n) := by
  rw [List.foldl_append, List.foldl_append, List.foldl_cons]
  exact foldl_bumpTok_bump c n l2 _ _

/-! ## Hex codec lemmas -/

theorem hexMin_lt_16 : ∀ n, ∀ d ∈ hexMin n, d < 16 := by
  intro n
  induction n using Nat.strong_induction_on with
  | _ n ih =>
    intro d hd
    rw [hexMin] at hd
    split at hd
    next h =>
      simp at hd
      omega
    next h =>
      simp at hd
      rcases hd with hd | hd
      · exact ih (n / 16) (Nat.div_lt_self (by omega) (by omega)) d hd
      · omega

theorem toHex2_lt_16 (c : Nat) : ∀ d ∈ toHex2 c, d < 16 := by
  intro d hd
  rw [toHex2] at hd
  by_cases h : (hexMin c).length < 2
  · rw [if_pos h] at hd
    rcases List.mem_cons.mp hd with hd | hd
    · omega
    · exact hexMin_lt_16 c d hd
  · rw [if_neg h] at hd
    exact hexMin_lt_16 c d hd

/-- For a counter that fits one byte, the padded rendering is exactly the
byte's two nibbles. -/
theorem toHex2_byte (c : Nat) (h : c < 256) : toHex2 c = [c / 16, c % 16] := by
  by_cases h16 : c < 16
  · rw [toHex2, hexMin]
    simp [h16]
    omega
  · rw [toHex2, hexMin]
    simp only [h16, dif_neg, not_false_iff]
    rw [hexMin]
    have : c / 16 < 16 := by omega
    simp [this]

theorem hexToBytes_pair (a b : Nat) (rest : List Nat) :
    hexToBytes (a :: b :: rest) = (16 * a + b) :: hexToBytes rest := rfl

/-- Packing the hex rendering of byte-sized counters recovers the
counters: `Buffer.from(hexString, 'hex')` inverts the rendering. -/
theorem hexToBytes_flatMap_toHex2 :
    ∀ (H : List Nat), (∀ x ∈ H, x < 256) →
      hexToBytes (H.flatMap toHex2) = H
  | [], _ => rfl
  | x :: xs, h => by
    have hx : x < 256 := h x (List.mem_cons_self x xs)
    rw [List.flatMap_cons, toHex2_byte x hx]
    show hexToBytes (x / 16 :: x % 16 :: xs.flatMap toHex2) = x :: xs
    rw [hexToBytes_pair]
    rw [hexToBytes_flatMap_toHex2 xs (fun y hy => h y (List.mem_cons_of_mem x hy))]
    congr 1
    omega

/-- Parsing the hex form of a byte list two digits at a time recovers the
bytes. -/
theorem hexPairs_bytesToHexDigits : ∀ (bs : List Nat),
    hexPairs (bytesToHexDigits bs) = bs
  | [] => rfl
  | b :: rest => by
    show hexPairs (b / 16 :: b % 16 :: bytesToHexDigits rest) = b :: rest
    rw [hexPairs, hexPairs_bytesToHexDigits rest]
    congr 1
    omega

theorem bytesToHexDigits_length (bs : List Nat) :
    (bytesToHexDigits bs).length = 2 * bs.length := by
  induction bs with
  | nil => rfl
  | cons b rest ih =>
    show (b / 16 :: b % 16 :: bytesToHexDigits rest).length = _
    simp [ih]
    omega

theorem hexPairs_length : ∀ (l : List Nat), (hexPairs l).length = l.length / 2
  | [] => rfl
  | [a] => by simp [hexPairs]
  | _ :: _ :: rest => by
    rw [hexPairs, List.length_cons, hexPairs_length rest]
    simp only [List.length_cons]
    omega

/-- On equal-even-length hex strings the comparison loop computes exactly
the total absolute per-bucket distance of the parsed histograms. -/
theorem distanceLoop_eq_histDist : ∀ (d1 d2 : List Nat),
    d1.length = d2.length → d1.length % 2 = 0 →
    distanceLoop d1 d2 = histDist (hexPairs d1) (hexPairs d2)
  | [], [], _, _ => rfl
  | [a], [x], _, he => by simp at he
  | a :: b :: r1, x :: y :: r2, h, he => by
    rw [distanceLoop, hexPairs, hexPairs]
    rw [distanceLoop_eq_histDist r1 r2 (by simpa using h) (by simp at he; omega)]
    simp [histDist]
  | [], _ :: _, h, _ => by simp at h
  | _ :: _, [], h, _ => by simp at h
  | [_], _ :: _ :: _, h, _ => by simp at h
  | _ :: _ :: _, [_], h, _ => by simp at h

theorem distanceLoop_self : ∀ (d : List Nat), distanceLoop d d = 0
  | [] => rfl
  | [a] => by simp [distanceLoop]
  | a :: b :: rest => by
    rw [distanceLoop, distanceLoop_self rest]
    simp

/-! ## Base64 round-trip -/

theorem b64Val_b64Char : ∀ v < 64, b64Val (b64Char v) = some v := by decide

theorem b64Char_ne_61 : ∀ v < 64, (b64Char v).toNat ≠ 61 := by decide

theorem takeWhile_ne61_cons (v : Nat) (hv : v < 64) (l : List Char) :
    (b64Char v :: l).takeWhile (fun ch => ch.toNat ≠ 61) =
      b64Char v :: l.takeWhile (fun ch => ch.toNat ≠ 61) := by
  rw [List.takeWhile_cons, if_pos]
  exact decide_eq_true (b64Char_ne_61 v hv)

theorem base64_roundtrip : ∀ (bs : List Nat), (∀ x ∈ bs, x < 256) →
    base64decode (base64encode bs) = bs
  | [], _ => rfl
  | [x], h => by
    have hx : x < 256 := h x (by simp)
    have h1 : x / 4 < 64 := by omega
    have h2 : x % 4 * 16 < 64 := by omega
    rw [base64decode, base64encode]
    show b64DecGroups (((b64EncGroups [x]).takeWhile _).filterMap b64Val) = [x]
    rw [b64EncGroups, takeWhile_ne61_cons _ h1, takeWhile_ne61_cons _ h2]
    rw [List.takeWhile_cons, if_neg (by simp [Char.ofNat])]
    rw [List.filterMap_cons, b64Val_b64Char _ h1,
      List.filterMap_cons, b64Val_b64Char _ h2, List.filterMap_nil]
    rw [b64DecGroups]
    congr 1
    omega
  | [x, y], h => by
    have hx : x < 256 := h x (by simp)
    have hy : y < 256 := h y (by simp)
    have h1 : x / 4 < 64 := by omega
    have h2 : x % 4 * 16 + y / 16 < 64 := by omega
    have h3 : y % 16 * 4 < 64 := by omega
    rw [base64decode, base64encode]
    show b64DecGroups (((b64EncGroups [x, y]).takeWhile _).filterMap b64Val) = [x, y]
    rw [b64EncGroups, takeWhile_ne61_cons _ h1, takeWhile_ne61_cons _ h2,
      takeWhile_ne61_cons _ h3]
    rw [List.takeWhile_cons, if_neg (by simp [Char.ofNat])]
    rw [List.filterMap_cons, b64Val_b64Char _ h1,
      List.filterMap_cons, b64Val_b64Char _ h2,
      List.filterMap_cons, b64Val_b64Char _ h3, List.filterMap_nil]
    rw [b64DecGroups]
    congr 1
    · omega
    · congr 1
      omega
  | x :: y :: z :: rest, h => by
    have hx : x < 256 := h x (by simp)
    have hy : y < 256 := h y (by simp)
    have hz : z < 256 := h z (by simp)
    have h1 : x / 4 < 64 := by omega
    have h2 : x % 4 * 16 + y / 16 < 64 := by omega
    have h3 : y % 16 * 4 + z / 64 < 64 := by omega
    have h4 : z % 64 < 64 := by omega
    have ih := base64_roundtrip rest (fun a ha => h a (by simp [ha]))
    rw [base64decode, base64encode] at ih ⊢
    show b64DecGroups
      (((b64EncGroups (x :: y :: z :: rest)).takeWhile _).filterMap b64Val) =
      x :: y :: z :: rest
    rw [b64EncGroups, takeWhile_ne61_cons _ h1, takeWhile_ne61_cons _ h2,
      takeWhile_ne61_cons _ h3, takeWhile_ne61_cons _ h4]
    rw [List.filterMap_cons, b64Val_b64Char _ h1,
      List.filterMap_cons, b64Val_b64Char _ h2,
      List.filterMap_cons, b64Val_b64Char _ h3,
      List.filterMap_cons, b64Val_b64Char _ h4]
    rw [b64DecGroups]
    rw [show (String.mk (b64EncGroups rest)).data = b64EncGroups rest from rfl] at ih
    rw [ih]
    congr 1
    · omega
    · congr 1
      · omega
      · congr 1
        omega

/-! ## cook / decompress lemmas -/

/-- If the cache field is set, `cook` returns it untouched, whatever the
requested bucket count. -/
theorem cook_cached (c : Codec) (r : Recipe) (h : String) (q : Rat)
    (hh : r.hash = some h) : Recipe.cook c r q = .ok (h, r) := by
  rw [Recipe.cook, hh]

/-- On a fresh recipe, a valid bucket count computes and caches the
encoded histogram. -/
theorem cook_fresh (c : Codec) (r : Recipe) (q : Rat) (hh : r.hash = none)
    (hq : q.den = 1 ∧ 0 ≤ q.num ∧ q.num < 4294967296) :
    Recipe.cook c r q =
      .ok (encodeHistogram c (cookBuckets c q.num.toNat r),
        { r with hash := some (encodeHistogram c (cookBuckets c q.num.toNat r)) }) := by
  rw [Recipe.cook, hh]
  simp only [if_pos hq]

theorem den_256 : (256 : Rat).den = 1 ∧ 0 ≤ (256 : Rat).num ∧
    (256 : Rat).num < 4294967296 := by decide

theorem hexToBytes_lt_256 : ∀ (l : List Nat), (∀ d ∈ l, d < 16) →
    ∀ x ∈ hexToBytes l, x < 256
  | [], _, x, hx => by simp [hexToBytes] at hx
  | [a], _, x, hx => by simp [hexToBytes] at hx
  | a :: b :: rest, h, x, hx => by
    rw [hexToBytes_pair] at hx
    rcases List.mem_cons.mp hx with hx | hx
    · have ha : a < 16 := h a (by simp)
      have hb : b < 16 := h b (by simp)
      omega
    · exact hexToBytes_lt_256 rest (fun d hd => h d (by simp [hd])) x hx

theorem flatMap_toHex2_lt_16 (H : List Nat) :
    ∀ d ∈ H.flatMap toHex2, d < 16 := by
  intro d hd
  rcases List.mem_flatMap.mp hd with ⟨x, _, hdx⟩
  exact toHex2_lt_16 x d hdx

/-- Decoding an encoded histogram under a faithful compressor yields the
hex rendering back. -/
theorem decompress_encode (c : Codec) (hg : GzipFaithful c) (buckets : List Nat) :
    decompressHash c (encodeHistogram c buckets) =
      .ok (bytesToHexDigits (hexToBytes (buckets.flatMap toHex2))) := by
  rw [encodeHistogram, decompressHash]
  rw [base64_roundtrip _ (hg.bytes _ (hexToBytes_lt_256 _ (flatMap_toHex2_lt_16 buckets)))]
  rw [hg.roundtrip]

/-- The concrete stand-in compressor has the three zlib properties. -/
theorem codecM_faithful : GzipFaithful codecM := by
  constructor
  · intro bs
    simp [codecM, gzipM, gunzipM]
  · intro bs h x hx
    simp only [codecM, gzipM] at hx
    rcases List.mem_cons.mp hx with hx | hx
    · omega
    rcases List.mem_cons.mp hx with hx | hx
    · omega
    · exact h x hx
  · intro bs hb
    simp only [codecM, gunzipM]
    rw [if_neg hb]

/-- A decoded hex string always has even length (two digits per byte). -/
theorem decompressHash_even (c : Codec) (h : String) (d : List Nat)
    (hd : decompressHash c h = .ok d) : d.length % 2 = 0 := by
  rw [decompressHash] at hd
  cases hg : c.gunzip (base64decode h) with
  | none => rw [hg] at hd; cases hd
  | some bytes =>
    rw [hg] at hd
    cases hd
    rw [bytesToHexDigits_length]
    omega

/-- The only error `decompressHash` can throw. -/
theorem decompressHash_error (c : Codec) (h : String) (e : JsError)
    (hd : decompressHash c h = .error e) : e = .invalidHashFormat := by
  rw [decompressHash] at hd
  cases hg : c.gunzip (base64decode h) with
  | none => rw [hg] at hd; cases hd; rfl
  | some bytes => rw [hg] at hd; cases hd

/-- `this.cook()` (default 256 buckets) never throws. -/
theorem cook_256_ok (c : Codec) (r : Recipe) :
    ∃ p, Recipe.cook c r 256 = .ok p := by
  cases hh : r.hash with
  | some h => exact ⟨(h, r), cook_cached c r h 256 hh⟩
  | none => exact ⟨_, cook_fresh c r 256 hh den_256⟩

/-- A successful `cook` always leaves the cache set to the returned hash. -/
theorem cook_ok_hash (c : Codec) (r : Recipe) (q : Rat) (h : String)
    (r' : Recipe) (hc : Recipe.cook c r q = .ok (h, r')) : r'.hash = some h := by
  rw [Recipe.cook] at hc
  cases hh : r.hash with
  | some h0 =>
    rw [hh] at hc
    cases hc
    exact hh
  | none =>
    rw [hh] at hc
    by_cases hq : q.den = 1 ∧ 0 ≤ q.num ∧ q.num < 4294967296
    · rw [if_pos hq] at hc
      cases hc
      rfl
    · rw [if_neg hq] at hc
      cases hc

/-- Concrete fresh recipe used to evaluate the pipeline on closed inputs:
ingredients Latte/Espresso/Sugar, one add-and-mix step (spec §8). -/
def recipeLatte : Recipe :=
  Recipe.create "Latte"
    [⟨"ingredient", "Latte", 1⟩, ⟨"ingredient", "Espresso", 1⟩,
      ⟨"ingredient", "Sugar", 2⟩]
    [.mk [⟨"add", some ⟨"ingredient", "Latte", 1⟩, some ⟨"container", "cup", 0⟩,
        none, none⟩,
      ⟨"mix", none, some ⟨"container", "cup", 0⟩, none, none⟩] [] [] [] []]
    1 []

/-- A recipe whose cache holds the encoding of the one-bucket histogram
`[255]` (reachable by assigning the writable `hash` field). -/
def recipeFF : Recipe :=
  { recipeLatte with hash := some "H4v/" }

/-- A recipe whose cache holds the encoding of the one-bucket histogram
`[1]`. -/
def recipe01 : Recipe :=
  { recipeLatte with hash := some "H4sB" }

theorem foldl_bumpTok_nil (c : Codec) (n : Nat) :
    ∀ (l : List String), l.foldl (bumpTok c n) [] = []
  | [] => rfl
  | t :: ts => by
    simp only [List.foldl_cons]
    rw [show bumpTok c n [] t = [] from rfl]
    exact foldl_bumpTok_nil c n ts

/-- With zero buckets every increment lands out of range of the empty
array, so the histogram stays empty. -/
theorem cookBuckets_zero (c : Codec) (r : Recipe) : cookBuckets c 0 r = [] := by
  rw [cookBuckets_tokens]
  exact foldl_bumpTok_nil c 0 (recipeTokens r)

/-- `cookBuckets` reads only the ingredients and the steps. -/
theorem cookBuckets_congr (c : Codec) (n : Nat) (r1 r2 : Recipe)
    (hing : r1.ingredients = r2.ingredients) (hsteps : r1.steps = r2.steps) :
    cookBuckets c n r1 = cookBuckets c n r2 := by
  rw [cookBuckets, cookBuckets, hing, hsteps]

/-- Reduction of `compareTo` against a hash-string operand when both
sides decode and the lengths agree. -/
theorem compareTo_str_ok (c : Codec) (r : Recipe) (s e : String) (r' : Recipe)
    (d1 d2 : List Nat)
    (hc : Recipe.cook c r 256 = .ok (e, r'))
    (h1 : decompressHash c e = .ok d1)
    (h2 : decompressHash c s = .ok d2)
    (hlen : d1.length = d2.length) :
    Recipe.compareTo c r (.inr s) =
      .ok (1 - (distanceLoop d1 d2 : Rat) / (16 * ((d1.length : Rat) / 2))) := by
  unfold Recipe.compareTo
  rw [hc]
  simp only [h1, h2]
  rw [if_neg]
  omega

/-- Reduction of `compareTo` against a recipe operand when both sides
cook, decode, and the lengths agree. -/
theorem compareTo_rec_ok (c : Codec) (r r2 : Recipe) (e e2 : String)
    (r' r2' : Recipe) (d1 d2 : List Nat)
    (hc : Recipe.cook c r 256 = .ok (e, r'))
    (hc2 : Recipe.cook c r2 256 = .ok (e2, r2'))
    (h1 : decompressHash c e = .ok d1)
    (h2 : decompressHash c e2 = .ok d2)
    (hlen : d1.length = d2.length) :
    Recipe.compareTo c r (.inl r2) =
      .ok (1 - (distanceLoop d1 d2 : Rat) / (16 * ((d1.length : Rat) / 2))) := by
  unfold Recipe.compareTo
  rw [hc]
  simp only [hc2, Except.map, h1, h2]
  rw [if_neg]
  omega

/-! ## Claims -/

/-- C2: `cook` is deterministic: a second invocation on the instance a
successful `cook` returned yields the very same `EncodedHash`, and two
identically-constructed recipe instances (equal ingredients, steps and
cache field — the only fields the pipeline reads) yield
character-for-character identical `EncodedHash` strings for every bucket
count; the whole pipeline is a pure function of recipe content and N. -/
theorem c2_cook_deterministic :
    (∀ (c : Codec) (r : Recipe) (q : Rat) (h : String) (r' : Recipe),
      Recipe.cook c r q = .ok (h, r') → Recipe.cook c r' q = .ok (h, r')) ∧
    (∀ (c : Codec) (q : Rat) (r1 r2 : Recipe),
      r1.ingredients = r2.ingredients → r1.steps = r2.steps →
      r1.hash = r2.hash →
      (Recipe.cook c r1 q).map Prod.fst = (Recipe.cook c r2 q).map Prod.fst) := by
  constructor
  · intro c r q h r' hc
    have hh := cook_ok_hash c r q h r' hc
    exact cook_cached c r' h q hh
  · intro c q r1 r2 hing hsteps hhash
    rw [Recipe.cook, Recipe.cook, hhash]
    cases r2.hash with
    | some h => rfl
    | none =>
      by_cases hq : q.den = 1 ∧ 0 ≤ q.num ∧ q.num < 4294967296
      · rw [if_pos hq, if_pos hq]
        simp only [Except.map]
        rw [cookBuckets_congr c q.num.toNat r1 r2 hing hsteps]
      · rw [if_neg hq, if_neg hq]

/-- C2 witness: cooking the Latte recipe, then cooking the returned
instance again, reproduces the same hash; a field-identical copy hashes
identically. -/
theorem c2_witness :
    Recipe.cook codecM
      { recipeLatte with hash := some (encodeHistogram codecM (cookBuckets codecM 256 recipeLatte)) }
      256 =
      .ok (encodeHistogram codecM (cookBuckets codecM 256 recipeLatte),
        { recipeLatte with hash := some (encodeHistogram codecM (cookBuckets codecM 256 recipeLatte)) }) ∧
    (Recipe.cook codecM recipeLatte 256).map Prod.fst =
      (Recipe.cook codecM { recipeLatte with servings := 4 } 256).map Prod.fst := by
  constructor
  · exact c2_cook_deterministic.1 codecM recipeLatte 256 _ _
      (cook_fresh codecM recipeLatte 256 rfl den_256)
  · exact c2_cook_deterministic.2 codecM 256 recipeLatte
      { recipeLatte with servings := 4 } rfl rfl rfl

/-- C4: decoding the encoding of any valid histogram (every counter fits
the 2-hex-digit field, i.e. is at most 255) recovers the counters in
order: hex-render, gzip, base64, then base64-decode, gunzip, parse pairs. -/
theorem c4_roundtrip (c : Codec) (hg : GzipFaithful c) (H : List Nat)
    (hH : ∀ x ∈ H, x < 256) :
    decodeHistogram c (encodeHistogram c H) = .ok H := by
  rw [decodeHistogram, decompress_encode c hg H]
  rw [Except.map]
  rw [hexToBytes_flatMap_toHex2 H hH, hexPairs_bytesToHexDigits]

/-- C4 witness: round trip of the concrete histogram `[0, 1, 2, 255]`
under the concrete stand-in compressor. -/
theorem c4_roundtrip_witness :
    decodeHistogram codecM (encodeHistogram codecM [0, 1, 2, 255]) =
      .ok [0, 1, 2, 255] :=
  c4_roundtrip codecM codecM_faithful [0, 1, 2, 255] (by decide)

/-- C5 counterexample: requesting zero buckets — not a positive integer —
does NOT raise: `cook(0)` on a fresh recipe returns an `EncodedHash`
(the encoding of the empty histogram), because the code validates the
bucket count only implicitly through `new Array(numBuckets)`, which
accepts 0. -/
theorem c5_counterexample :
    (Recipe.cook codecM recipeLatte 0).map Prod.fst = .ok "H4s=" := rfl

/-- C5 as amended: on a fresh recipe, `cook` raises an error (the
`RangeError` thrown by `new Array`) for every bucket count that is
negative, non-integer, or at least 2^32 — but a bucket count of 0 is
accepted and returns the encoding of the empty histogram. -/
theorem c5_amended :
    (∀ (c : Codec) (r : Recipe) (q : Rat), r.hash = none →
      (q.den ≠ 1 ∨ q.num < 0 ∨ 4294967296 ≤ q.num) →
      Recipe.cook c r q = .error .rangeError) ∧
    (∀ (c : Codec) (r : Recipe), r.hash = none →
      (Recipe.cook c r 0).map Prod.fst = .ok (base64encode (c.gzip []))) := by
  constructor
  · intro c r q hh hq
    rw [Recipe.cook, hh, if_neg]
    intro hvalid
    rcases hq with hq | hq | hq
    · exact hq hvalid.1
    · omega
    · omega
  · intro c r hh
    rw [cook_fresh c r 0 hh (by decide)]
    rw [show ((0 : Rat).num.toNat) = 0 from rfl]
    rw [cookBuckets_zero]
    rfl

/-- The rational 5/2, i.e. the JS number `2.5`. -/
def twoPointFive : Rat := Rat.mk' 5 2 (by decide) (by decide)

/-- C5 witness: a fractional bucket count (2.5) and a negative one (-1)
raise the range error; zero yields a hash. -/
theorem c5_amended_witness :
    Recipe.cook codecM recipeLatte twoPointFive = .error .rangeError ∧
    Recipe.cook codecM recipeLatte (-1) = .error .rangeError ∧
    (Recipe.cook codecM recipeLatte 0).map Prod.fst = .ok "H4s=" := by
  refine ⟨?_, ?_, ?_⟩
  · exact c5_amended.1 codecM recipeLatte twoPointFive rfl (by decide)
  · exact c5_amended.1 codecM recipeLatte (-1) rfl (by decide)
  · rw [c5_amended.2 codecM recipeLatte rfl]
    rfl

/-- C8: a `null`/`undefined` temperature field contributes no token: two
recipes identical except that one action additionally carries a
temperature value produce histograms differing exactly by one increment
of that token's bucket. -/
theorem c8_null_field_skip (c : Codec) (n : Nat) (r1 r2 : Recipe)
    (pre post : List RecipeStep) (acts1 acts2 : List Action)
    (cues : List Cue) (adjs : List Adjustment) (checks : List SensoryCheck)
    (threads : List RecipeStep) (a : Action) (v : TValue)
    (ha : a.temperature = none)
    (hing : r1.ingredients = r2.ingredients)
    (h1 : r1.steps =
      pre ++ RecipeStep.mk (acts1 ++ a :: acts2) cues adjs checks threads :: post)
    (h2 : r2.steps =
      pre ++ RecipeStep.mk
        (acts1 ++ { a with temperature := some v } :: acts2)
        cues adjs checks threads :: post) :
    cookBuckets c n r2 =
      bump (cookBuckets c n r1) (c.digest32 v.value.toLower % n) := by
  rw [cookBuckets_tokens, cookBuckets_tokens, recipeTokens, recipeTokens,
    hing, h1, h2]
  have e2 : r2.ingredients.map Entity.name ++
      (pre ++ RecipeStep.mk (acts1 ++ { a with temperature := some v } :: acts2)
        cues adjs checks threads :: post).flatMap stepTokens =
      (r2.ingredients.map Entity.name ++ pre.flatMap stepTokens
        ++ acts1.flatMap actionTokens
        ++ a.atype :: (optEntityTok a.ingredient ++ optEntityTok a.container))
      ++ v.value ::
      (optValueTok a.duration ++ acts2.flatMap actionTokens
        ++ cues.flatMap (fun cu => [cu.ctype, cu.description])
        ++ checks.flatMap (fun ck => [ck.stype, ck.description])
        ++ threadTokens threads ++ post.flatMap stepTokens) := by
    simp [stepTokens, actionTokens, optValueTok, List.append_assoc]
  have e1 : r2.ingredients.map Entity.name ++
      (pre ++ RecipeStep.mk (acts1 ++ a :: acts2)
        cues adjs checks threads :: post).flatMap stepTokens =
      (r2.ingredients.map Entity.name ++ pre.flatMap stepTokens
        ++ acts1.flatMap actionTokens
        ++ a.atype :: (optEntityTok a.ingredient ++ optEntityTok a.container))
      ++
      (optValueTok a.duration ++ acts2.flatMap actionTokens
        ++ cues.flatMap (fun cu => [cu.ctype, cu.description])
        ++ checks.flatMap (fun ck => [ck.stype, ck.description])
        ++ threadTokens threads ++ post.flatMap stepTokens) := by
    simp [stepTokens, actionTokens, ha, optValueTok, List.append_assoc]
  rw [e2, e1]
  exact foldl_bumpTok_insert c n _ _ v.value (List.replicate n 0)

/-- A heat action with no temperature field set. -/
def panAction : Action := ⟨"heat", none, some ⟨"container", "pan", 0⟩, none, none⟩

/-- One-step recipe whose action has no temperature. -/
def recipeNoTemp : Recipe :=
  Recipe.create "Heat" [⟨"ingredient", "water", 1⟩]
    [.mk [panAction] [] [] [] []] 1 []

/-- The same recipe except the action carries temperature value "80". -/
def recipeWithTemp : Recipe :=
  Recipe.create "Heat" [⟨"ingredient", "water", 1⟩]
    [.mk [{ panAction with temperature := some ⟨"80"⟩ }] [] [] [] []] 1 []

/-- C8 witness: the two concrete one-step recipes differ exactly by the
temperature token's bucket increment. -/
theorem c8_witness :
    cookBuckets codecM 8 recipeWithTemp =
      bump (cookBuckets codecM 8 recipeNoTemp)
        (codecM.digest32 (TValue.mk "80").value.toLower % 8) :=
  c8_null_field_skip codecM 8 recipeNoTemp recipeWithTemp [] [] [] [] [] [] []
    [] panAction ⟨"80"⟩ rfl rfl rfl rfl

mutual

theorem stepTokens_strip : ∀ (s : RecipeStep),
    stepTokens (stripAdjustments s) = stepTokens s
  | .mk acts cues adjs checks threads => by
    rw [stripAdjustments, stepTokens, stepTokens, threadTokens_strip threads]

theorem threadTokens_strip : ∀ (ts : List RecipeStep),
    threadTokens (stripAdjustmentsList ts) = threadTokens ts
  | [] => rfl
  | t :: ts => by
    rw [stripAdjustmentsList, threadTokens, threadTokens, stepTokens_strip t,
      threadTokens_strip ts]

end

theorem threadTokens_flatMap : ∀ (ts : List RecipeStep),
    threadTokens ts = ts.flatMap stepTokens
  | [] => rfl
  | t :: ts => by
    rw [threadTokens, List.flatMap_cons, threadTokens_flatMap ts]

theorem flatMap_stepTokens_strip (l1 l2 : List RecipeStep)
    (h : stripAdjustmentsList l1 = stripAdjustmentsList l2) :
    l1.flatMap stepTokens = l2.flatMap stepTokens := by
  rw [← threadTokens_flatMap, ← threadTokens_flatMap,
    ← threadTokens_strip l1, ← threadTokens_strip l2, h]

/-- C9: adjustments contribute no tokens — recipes whose steps differ only
in their adjustments lists (at any nesting depth, i.e. whose
adjustment-erased step trees coincide) produce identical histograms for
every bucket count and identical `EncodedHash` values — while a step's
token fold consists of its actions' tokens, each cue's type and
description, each sensory check's type and description, and then,
recursively, every parallel thread's tokens. -/
theorem c9_adjustments_untokenized :
    (∀ (c : Codec) (r1 r2 : Recipe),
      r1.ingredients = r2.ingredients →
      stripAdjustmentsList r1.steps = stripAdjustmentsList r2.steps →
      (∀ n : Nat, cookBuckets c n r1 = cookBuckets c n r2) ∧
      (r1.hash = r2.hash → ∀ q : Rat,
        (Recipe.cook c r1 q).map Prod.fst = (Recipe.cook c r2 q).map Prod.fst)) ∧
    (∀ (c : Codec) (n : Nat) (acts : List Action) (cues : List Cue)
        (adjs : List Adjustment) (checks : List SensoryCheck)
        (threads : List RecipeStep) (b : List Nat),
      hashStep c n (.mk acts cues adjs checks threads) b =
        ((acts.flatMap actionTokens
          ++ cues.flatMap (fun cu => [cu.ctype, cu.description])
          ++ checks.flatMap (fun ck => [ck.stype, ck.description]))
          ++ threads.flatMap stepTokens).foldl (bumpTok c n) b) := by
  constructor
  · intro c r1 r2 hing hstrip
    have htok : recipeTokens r1 = recipeTokens r2 := by
      rw [recipeTokens, recipeTokens, hing,
        flatMap_stepTokens_strip r1.steps r2.steps hstrip]
    have hbuck : ∀ n : Nat, cookBuckets c n r1 = cookBuckets c n r2 := by
      intro n
      rw [cookBuckets_tokens, cookBuckets_tokens, htok]
    refine ⟨hbuck, ?_⟩
    intro hhash q
    rw [Recipe.cook, Recipe.cook, hhash]
    cases r2.hash with
    | some h => rfl
    | none =>
      by_cases hq : q.den = 1 ∧ 0 ≤ q.num ∧ q.num < 4294967296
      · rw [if_pos hq, if_pos hq]
        simp only [Except.map]
        rw [hbuck]
      · rw [if_neg hq, if_neg hq]
  · intro c n acts cues adjs checks threads b
    rw [hashStep_tokens, stepTokens, threadTokens_flatMap]

/-- One-step recipe whose step carries an adjustment. -/
def recipeAdj : Recipe :=
  Recipe.create "A" [⟨"ingredient", "salt", 1⟩]
    [.mk [] [⟨"color", "golden"⟩] [⟨"if dry", "add water"⟩] [] []] 1 []

/-- The same recipe with the adjustment removed. -/
def recipeNoAdj : Recipe :=
  Recipe.create "A" [⟨"ingredient", "salt", 1⟩]
    [.mk [] [⟨"color", "golden"⟩] [] [] []] 1 []

/-- C9 witness: the concrete pair differing only by an adjustment hashes
to the same histogram and the same encoded hash. -/
theorem c9_witness :
    cookBuckets codecM 8 recipeAdj = cookBuckets codecM 8 recipeNoAdj ∧
    (Recipe.cook codecM recipeAdj 256).map Prod.fst =
      (Recipe.cook codecM recipeNoAdj 256).map Prod.fst := by
  have h := c9_adjustments_untokenized.1 codecM recipeAdj recipeNoAdj rfl rfl
  exact ⟨h.1 8, h.2 rfl 256⟩

/-- C10: the hash cache is absolute for an instance's lifetime: after one
successful `cook`, every later `cook` — with any other bucket count, even
after `scale` and `addTags` mutations — returns the identical cached
string; and only the constructor produces an instance with an unset
cache. -/
theorem c10_cache_absolute :
    (∀ (c : Codec) (r : Recipe) (q1 : Rat) (h : String) (r' : Recipe),
      Recipe.cook c r q1 = .ok (h, r') →
      ∀ (factor : Rat) (newTags : List String) (q2 : Rat),
        Recipe.cook c ((r'.scale factor).addTags newTags) q2 =
          .ok (h, (r'.scale factor).addTags newTags)) ∧
    (∀ (name : String) (ings : List Entity) (steps : List RecipeStep)
        (servings : Rat) (tags : List String),
      (Recipe.create name ings steps servings tags).hash = none) := by
  constructor
  · intro c r q1 h r' hc factor newTags q2
    have hh : ((r'.scale factor).addTags newTags).hash = some h :=
      cook_ok_hash c r q1 h r' hc
    exact cook_cached c _ h q2 hh
  · intro name ings steps servings tags
    rfl

/-- C1: on operands with equal decoded histogram length N > 0, `compareTo`
returns exactly `1 - D / (16 * N)` where N is the bucket count of the
decoded histograms and D their total absolute per-bucket difference — the
divisor constant is 16, not 255 — and the score is not clamped: a concrete
pair of histograms (`[255]` vs `[0]`, distance 255 > 16 * 1) yields a
negative score. -/
theorem c1_similarity_formula :
    (∀ (c : Codec) (r : Recipe) (s e : String) (r' : Recipe) (d1 d2 : List Nat),
      Recipe.cook c r 256 = .ok (e, r') →
      decompressHash c e = .ok d1 →
      decompressHash c s = .ok d2 →
      d1.length = d2.length → 0 < d1.length →
      Recipe.compareTo c r (.inr s) =
        .ok (1 - (histDist (hexPairs d1) (hexPairs d2) : Rat) /
          (16 * ((hexPairs d1).length : Rat)))) ∧
    (∃ q : Rat, Recipe.compareTo codecM recipeFF (.inr "H4sA") = .ok q ∧ q < 0) := by
  constructor
  · intro c r s e r' d1 d2 hc h1 h2 hlen hpos
    rw [compareTo_str_ok c r s e r' d1 d2 hc h1 h2 hlen]
    have heven := decompressHash_even c e d1 h1
    rw [distanceLoop_eq_histDist d1 d2 hlen heven]
    obtain ⟨k, hk⟩ : ∃ k, d1.length = 2 * k := ⟨d1.length / 2, by omega⟩
    rw [hexPairs_length d1, hk]
    rw [Nat.mul_div_cancel_left k (by omega)]
    push_cast
    ring_nf
  · have h := compareTo_str_ok codecM recipeFF "H4sA" "H4v/" recipeFF
      [15, 15] [0, 0] rfl rfl rfl rfl
    refine ⟨_, h, ?_⟩
    rw [show distanceLoop [15, 15] [0, 0] = 255 from rfl]
    norm_num

/-- C1 witness: the hash-string pair encoding histograms `[255]` and `[0]`
has equal decoded length 2 > 0, and the formula instance is returned. -/
theorem c1_witness :
    Recipe.compareTo codecM recipeFF (.inr "H4sA") =
      .ok (1 - (histDist (hexPairs [15, 15]) (hexPairs [0, 0]) : Rat) /
        (16 * ((hexPairs [15, 15]).length : Rat))) :=
  c1_similarity_formula.1 codecM recipeFF "H4sA" "H4v/" recipeFF [15, 15] [0, 0]
    rfl rfl rfl rfl (by decide)

/-- C3: comparing a (fresh) recipe with itself, or with its own encoded
hash, returns exactly 1: the two decoded histograms coincide so the total
distance is 0. -/
theorem c3_self_similarity (c : Codec) (r : Recipe) (hg : GzipFaithful c)
    (hh : r.hash = none) :
    Recipe.compareTo c r (.inl r) = .ok 1 ∧
    ∀ (e : String) (r' : Recipe), Recipe.cook c r 256 = .ok (e, r') →
      Recipe.compareTo c r (.inr e) = .ok 1 := by
  have hc := cook_fresh c r 256 hh den_256
  have hd := decompress_encode c hg (cookBuckets c (256 : Rat).num.toNat r)
  constructor
  · rw [compareTo_rec_ok c r r _ _ _ _ _ _ hc hc hd hd rfl]
    rw [distanceLoop_self]
    norm_num
  · intro e r' hce
    rw [hc] at hce
    injection hce with hce
    have he : e = encodeHistogram c (cookBuckets c (256 : Rat).num.toNat r) :=
      (congrArg Prod.fst hce).symm
    subst he
    rw [compareTo_str_ok c r _ _ _ _ _ hc hd hd rfl]
    rw [distanceLoop_self]
    norm_num

/-- C3 witness: the concrete Latte recipe scores exactly 1 against
itself. -/
theorem c3_witness :
    Recipe.compareTo codecM recipeLatte (.inl recipeLatte) = .ok 1 :=
  (c3_self_similarity codecM recipeLatte codecM_faithful rfl).1

/-- C6: comparing any recipe against the garbage operand string
`"not-base64!!"` throws the decode error (its bytes do not start with
the gzip magic, so decompression fails); `compareTo` never returns a
numeric score for it. -/
theorem c6_garbage_decode_error (c : Codec) (r : Recipe) (hg : GzipFaithful c) :
    Recipe.compareTo c r (.inr "not-base64!!") = .error .invalidHashFormat := by
  obtain ⟨⟨e, r'⟩, hc⟩ := cook_256_ok c r
  have hother : decompressHash c "not-base64!!" = .error .invalidHashFormat := by
    rw [decompressHash, hg.magic (base64decode "not-base64!!") (by decide)]
  unfold Recipe.compareTo
  rw [hc]
  cases h1 : decompressHash c e with
  | error e1 =>
    simp only [h1]
    rw [decompressHash_error c e e1 h1]
  | ok d1 =>
    simp only [h1, hother]

/-- C6 witness: the concrete Latte recipe against the garbage string. -/
theorem c6_witness :
    Recipe.compareTo codecM recipeLatte (.inr "not-base64!!") =
      .error .invalidHashFormat :=
  c6_garbage_decode_error codecM recipeLatte codecM_faithful

/-- C7: when the two operands decode to histograms with different bucket
counts, `compareTo` throws the length-mismatch error (no truncation or
padding, no distance computed), and that error is distinguishable — as a
value and by its message — from the decode error thrown for malformed
payloads. -/
theorem c7_length_mismatch (c : Codec) (r : Recipe) (s e : String)
    (r' : Recipe) (d1 d2 : List Nat)
    (hc : Recipe.cook c r 256 = .ok (e, r'))
    (h1 : decompressHash c e = .ok d1)
    (h2 : decompressHash c s = .ok d2)
    (hne : (hexPairs d1).length ≠ (hexPairs d2).length) :
    Recipe.compareTo c r (.inr s) = .error .lengthMismatch ∧
    JsError.lengthMismatch ≠ JsError.invalidHashFormat ∧
    JsError.lengthMismatch.message ≠ JsError.invalidHashFormat.message := by
  have he1 := decompressHash_even c e d1 h1
  have he2 := decompressHash_even c s d2 h2
  have hlen : d1.length ≠ d2.length := by
    rw [hexPairs_length, hexPairs_length] at hne
    omega
  refine ⟨?_, by decide, by decide⟩
  unfold Recipe.compareTo
  rw [hc]
  simp only [h1, h2]
  rw [if_pos hlen]

/-- C7 witness: a cached 1-bucket hash against a 2-bucket hash string. -/
theorem c7_witness :
    Recipe.compareTo codecM recipe01 (.inr "H4sBAg==") = .error .lengthMismatch :=
  (c7_length_mismatch codecM recipe01 "H4sBAg==" "H4sB" recipe01
    [0, 1] [0, 1, 0, 2] rfl rfl rfl (by decide)).1

/-- C10 witness: cook the Latte recipe with 256 buckets, scale it by 3,
add a tag, then ask for 16 buckets: the original hash comes back. -/
theorem c10_witness :
    Recipe.cook codecM
      (((({ recipeLatte with
            hash := some (encodeHistogram codecM (cookBuckets codecM 256 recipeLatte)) }).scale 3).addTags ["sweet"]))
      16 =
      .ok (encodeHistogram codecM (cookBuckets codecM 256 recipeLatte),
        ((({ recipeLatte with
            hash := some (encodeHistogram codecM (cookBuckets codecM 256 recipeLatte)) }).scale 3).addTags ["sweet"])) :=
  c10_cache_absolute.1 codecM recipeLatte 256 _ _
    (cook_fresh codecM recipeLatte 256 rfl den_256) 3 ["sweet"] 16

end Tegamino
